import Mathlib

/-!
Verification development for a small Monkey-style interpreter front end
(token model, AST node model with source rendering, runtime object model,
chained environments, and the line-oriented read loop).

The AST node model mirrors `ast/ast.go`, the object and environment model
mirrors the `object` package, and the read loop mirrors `repl/repl.go`.
The lexer is not part of the provided source tree; where a claim needs it,
it is modelled from the specification (section 4.1) and marked as such.
-/

set_option autoImplicit false

namespace Monkey

/-- Lexical category of a token.  Modelled from the spec: the token package
is not in the provided sources; the spec lists end-of-input, identifier,
integer literal, the operators and delimiters
`= + - ! * / < > == != , ; ( ) { }`, the keywords
`fn let true false if else return`, and an illegal-token variant. -/
inductive TokenType where
  | illegal
  | eof
  | ident
  | int
  | assign
  | plus
  | minus
  | bang
  | asterisk
  | slash
  | lt
  | gt
  | eq
  | notEq
  | comma
  | semicolon
  | lparen
  | rparen
  | lbrace
  | rbrace
  | function
  | letKw
  | trueKw
  | falseKw
  | ifKw
  | elseKw
  | returnKw
deriving DecidableEq, Repr

/-- A token: an enumerated category plus the literal source substring
(`token.Token` with fields `Type` and `Literal`). -/
structure Token where
  type : TokenType
  literal : String
deriving DecidableEq, Repr

/-- Mirrors `ast.Identifier`: token plus the identifier's name string. -/
structure Identifier where
  token : Token
  value : String
deriving DecidableEq, Repr

mutual

/-- Expression nodes of `ast/ast.go`.  Child expression pointers that the
source dereferences unconditionally are modelled as required fields;
`IfExpression.Alternative` is nil-checked in the source and is an `Option`. -/
inductive Expression : Type where
  | identExpr : Identifier → Expression
  | integerLiteral : Token → Int → Expression
  | booleanLit : Token → Bool → Expression
  | prefixExpr : Token → String → Expression → Expression
  | infixExpr : Token → Expression → String → Expression → Expression
  | ifExpr : Token → Expression → BlockStatement → Option BlockStatement → Expression
  | functionLiteral : Token → List Identifier → BlockStatement → Expression
  | callExpr : Token → Expression → List Expression → Expression

/-- Mirrors `ast.BlockStatement`: the `{` token and an ordered list of statements. -/
inductive BlockStatement : Type where
  | mk : Token → List Statement → BlockStatement

/-- Statement nodes of `ast/ast.go`.  `LetStatement.Value`,
`ReturnStatement.ReturnValue` and `ExpressionStatement.Expression` are
nil-checked in the source `String` methods, hence `Option`. -/
inductive Statement : Type where
  | letStmt : Token → Identifier → Option Expression → Statement
  | returnStmt : Token → Option Expression → Statement
  | exprStmt : Token → Option Expression → Statement
  | blockStmt : BlockStatement → Statement

end

/-- Mirrors `ast.Program`: the root node, a series of statements. -/
structure Program where
  statements : List Statement

/-- Source method `Identifier.String()`: returns the identifier's value. -/
def Identifier.string (i : Identifier) : String :=
  i.value

/-- Source method `Identifier.TokenLiteral()`. -/
def Identifier.tokenLiteral (i : Identifier) : String :=
  i.token.literal

mutual

/-- The `String()` methods of the expression nodes in `ast/ast.go`. -/
def Expression.string : Expression → String
  | .identExpr i => i.string
  | .integerLiteral tok _ => tok.literal
  | .booleanLit tok _ => tok.literal
  | .prefixExpr _ op right => "(" ++ op ++ right.string ++ ")"
  | .infixExpr _ left op right =>
      "(" ++ left.string ++ " " ++ op ++ " " ++ right.string ++ ")"
  | .ifExpr _ cond cons alt =>
      "if" ++ cond.string ++ " " ++ cons.string ++
        (match alt with
         | some a => "else " ++ a.string
         | none => "")
  | .functionLiteral tok params body =>
      tok.literal ++ "(" ++ String.intercalate ", " (params.map Identifier.string) ++
        ") " ++ body.string
  | .callExpr _ fn args =>
      fn.string ++ "(" ++ String.intercalate ", " (expressionListStrings args) ++ ")"

/-- Renders each argument expression, as the loops in
`FunctionLiteral.String`/`CallExpression.String` do. -/
def expressionListStrings : List Expression → List String
  | [] => []
  | e :: es => e.string :: expressionListStrings es

/-- Source method `BlockStatement.String()`: concatenation of the statements' strings. -/
def BlockStatement.string : BlockStatement → String
  | .mk _ stmts => statementListString stmts

/-- The `String()` methods of the statement nodes in `ast/ast.go`. -/
def Statement.string : Statement → String
  | .letStmt tok name value =>
      tok.literal ++ " " ++ name.string ++ " = " ++
        (match value with
         | some v => v.string
         | none => "") ++ ";"
  | .returnStmt tok rv =>
      tok.literal ++ " " ++
        (match rv with
         | some v => v.string
         | none => "") ++ ";"
  | .exprStmt _ e =>
      match e with
      | some e => e.string
      | none => ""
  | .blockStmt b => b.string

/-- The buffer-append loop shared by `Program.String` and
`BlockStatement.String`. -/
def statementListString : List Statement → String
  | [] => ""
  | s :: rest => s.string ++ statementListString rest

end

/-- Source method `Program.String()`: concatenation of the statements' strings. -/
def Program.string (p : Program) : String :=
  statementListString p.statements

/-- The token stored in a statement node (`BlockStatement`'s own token for
the block variant). -/
def Statement.token : Statement → Token
  | .letStmt tok _ _ => tok
  | .returnStmt tok _ => tok
  | .exprStmt tok _ => tok
  | .blockStmt (.mk tok _) => tok

/-- The token stored in an expression node. -/
def Expression.token : Expression → Token
  | .identExpr i => i.token
  | .integerLiteral tok _ => tok
  | .booleanLit tok _ => tok
  | .prefixExpr tok _ _ => tok
  | .infixExpr tok _ _ _ => tok
  | .ifExpr tok _ _ _ => tok
  | .functionLiteral tok _ _ => tok
  | .callExpr tok _ _ => tok

/-- The `TokenLiteral()` methods of the statement nodes. -/
def Statement.tokenLiteral : Statement → String
  | .letStmt tok _ _ => tok.literal
  | .returnStmt tok _ => tok.literal
  | .exprStmt tok _ => tok.literal
  | .blockStmt (.mk tok _) => tok.literal

/-- The `TokenLiteral()` methods of the expression nodes. -/
def Expression.tokenLiteral : Expression → String
  | .identExpr i => i.tokenLiteral
  | .integerLiteral tok _ => tok.literal
  | .booleanLit tok _ => tok.literal
  | .prefixExpr tok _ _ => tok.literal
  | .infixExpr tok _ _ _ => tok.literal
  | .ifExpr tok _ _ _ => tok.literal
  | .functionLiteral tok _ _ => tok.literal
  | .callExpr tok _ _ => tok.literal

/-- Source method `Program.TokenLiteral()`: the first statement's token literal, or `""`
when the program has no statements. -/
def Program.tokenLiteral (p : Program) : String :=
  match p.statements with
  | [] => ""
  | s :: _ => s.tokenLiteral

/-- The `ast.Node` interface: every AST node (the `Program` root included)
implements `TokenLiteral` and `String`. -/
inductive Node : Type where
  | program : Program → Node
  | statement : Statement → Node
  | expression : Expression → Node

/-- The token a node retains, if the node's struct has a token field.
`Program` has none (its only field is the statement list). -/
def Node.tokenOf : Node → Option Token
  | .program _ => none
  | .statement s => some s.token
  | .expression e => some e.token

/-- The node's `TokenLiteral()` dispatched over the node kinds. -/
def Node.tokenLiteral : Node → String
  | .program p => p.tokenLiteral
  | .statement s => s.tokenLiteral
  | .expression e => e.tokenLiteral

mutual

/-- The runtime value variants of the `object` package: `Null`, `Boolean`,
`Integer`, `ReturnValue`, `Error`, and `Function` (parameters, body, and the
captured closure environment). -/
inductive Object : Type where
  | null : Object
  | boolean : Bool → Object
  | integer : Int → Object
  | returnValue : Object → Object
  | error : String → Object
  | function : List Identifier → BlockStatement → Environment → Object

/-- Mirrors `object.Environment`: a store mapping identifier to `Object`
(modelled as an association list with unique keys, matching
`map[string]Object`) plus an optional `outer` environment. -/
inductive Environment : Type where
  | mk : List (String × Object) → Option Environment → Environment

end

/-- The `store` field of an environment. -/
def Environment.store : Environment → List (String × Object)
  | .mk s _ => s

/-- The `outer` field of an environment. -/
def Environment.outer : Environment → Option Environment
  | .mk _ o => o

/-- Lookup `store[name]` in the map model: the unique (first) entry whose
key equals `name`, `none` when the key is absent (Go's `obj, ok` pair with
`ok = false`). -/
def lookupStore : List (String × Object) → String → Option Object
  | [], _ => none
  | (k, v) :: rest, name => if k = name then some v else lookupStore rest name

/-- Writing `store[name] = val` in the map model: replace the entry for `name` if
present, otherwise append it. -/
def insertStore : List (String × Object) → String → Object → List (String × Object)
  | [], name, val => [(name, val)]
  | (k, v) :: rest, name, val =>
      if k = name then (k, val) :: rest else (k, v) :: insertStore rest name val

/-- Source function `NewEnvironment`: a fresh environment with an empty store and no outer. -/
def newEnvironment : Environment :=
  .mk [] none

/-- Source function `NewEnclosedEnvironment(outer)`: `NewEnvironment` with its `outer` field
set to the given environment. -/
def newEnclosedEnvironment (outer : Environment) : Environment :=
  match newEnvironment with
  | .mk s _ => .mk s (some outer)

/-- Source method `Environment.Get`: look up in the own store; on a miss, when an outer
environment exists, recurse into it; `none` models `ok = false`. -/
def Environment.get : Environment → String → Option Object
  | .mk store outer, name =>
      match lookupStore store name with
      | some v => some v
      | none =>
          match outer with
          | some o => o.get name
          | none => none

/-- Source method `Environment.Set`: write the binding into the own store and return the
value; the model returns the updated environment alongside the returned
value. -/
def Environment.set (e : Environment) (name : String) (val : Object) :
    Environment × Object :=
  (.mk (insertStore e.store name val) e.outer, val)

/-- The chain of environments reached by following `outer` links, starting
at the environment itself (innermost first). -/
def Environment.chain : Environment → List Environment
  | .mk s o =>
      .mk s o ::
        (match o with
         | some e => e.chain
         | none => [])

/-- The length of the `outer` chain (at least 1: the environment itself). -/
def Environment.depth : Environment → Nat
  | .mk _ o =>
      1 +
        (match o with
         | some e => e.depth
         | none => 0)

/-- The pointer-chasing reading of `Get`, with an explicit step budget:
`none` means the budget ran out before the walk finished, `some r` that the
walk finished with result `r`. -/
def Environment.getFuel : Nat → Environment → String → Option (Option Object)
  | 0, _, _ => none
  | fuel + 1, e, name =>
      match lookupStore e.store name with
      | some v => some (some v)
      | none =>
          match e.outer with
          | some o => Environment.getFuel fuel o name
          | none => some none

/-- The `Inspect()` methods of the object variants.  `ReturnValue` delegates to the
wrapped value, `Error` prefixes its message, `Function` renders its
parameters and body exactly as `Function.Inspect` does. -/
def Object.inspect : Object → String
  | .null => "null"
  | .boolean b => if b then "true" else "false"
  | .integer i => toString i
  | .returnValue v => v.inspect
  | .error msg => "ERROR: " ++ msg
  | .function params body _ =>
      "fn" ++ " ( " ++ String.intercalate ", " (params.map Identifier.string) ++
        ") \x7b\n" ++ body.string ++ "\n\x7d"

/-- The `Type()` methods of the object variants, as the `ObjectType` string constants. -/
def Object.typeName : Object → String
  | .null => "NULL"
  | .boolean _ => "BOOLEAN"
  | .integer _ => "INTEGER"
  | .returnValue _ => "RETURN_VALUE"
  | .error _ => "ERROR"
  | .function _ _ _ => "FUNCTION"

/-- Modelled from the spec: the lexer's letter class (a maximal
identifier/keyword run is a run of these characters). -/
def isLetterChar (c : Char) : Bool :=
  c.isAlpha || c = '_'

/-- Modelled from the spec: the whitespace characters the lexer skips. -/
def isSpaceChar (c : Char) : Bool :=
  c = ' ' || c = '\t' || c = '\n' || c = '\r'

/-- Modelled from the spec: the fixed keyword table
`fn let true false if else return`; a letter run not in the table is an
identifier. -/
def lookupIdent (s : String) : TokenType :=
  if s = "fn" then .function
  else if s = "let" then .letKw
  else if s = "true" then .trueKw
  else if s = "false" then .falseKw
  else if s = "if" then .ifKw
  else if s = "else" then .elseKw
  else if s = "return" then .returnKw
  else .ident

/-- Modelled from the spec (section 4.1): `next_token` — the lexer is not in
the provided source tree.  Skip whitespace; a letter starts a maximal
identifier/keyword run resolved through the keyword table; a digit starts a
maximal digit run as an integer literal; `==` and `!=` use one character of
lookahead and fall back to `=` / `!`; the remaining single characters map to
their operator/delimiter tokens; an unrecognized character yields an illegal
token; exhausted input yields the end-of-input token.  The remaining input
is returned alongside the token (the cursor after the call). -/
def nextTokenCore : List Char → Token × List Char
  | [] => (⟨.eof, ""⟩, [])
  | c :: rest =>
      let cs := c :: rest
      if isLetterChar c then
        let lit := String.mk (cs.takeWhile isLetterChar)
        (⟨lookupIdent lit, lit⟩, cs.dropWhile isLetterChar)
      else if c.isDigit then
        (⟨.int, String.mk (cs.takeWhile Char.isDigit)⟩, cs.dropWhile Char.isDigit)
      else if c = '=' then
        if rest.head? = some '=' then (⟨.eq, "=="⟩, rest.tail)
        else (⟨.assign, "="⟩, rest)
      else if c = '!' then
        if rest.head? = some '=' then (⟨.notEq, "!="⟩, rest.tail)
        else (⟨.bang, "!"⟩, rest)
      else if c = '+' then (⟨.plus, "+"⟩, rest)
      else if c = '-' then (⟨.minus, "-"⟩, rest)
      else if c = '*' then (⟨.asterisk, "*"⟩, rest)
      else if c = '/' then (⟨.slash, "/"⟩, rest)
      else if c = '<' then (⟨.lt, "<"⟩, rest)
      else if c = '>' then (⟨.gt, ">"⟩, rest)
      else if c = ',' then (⟨.comma, ","⟩, rest)
      else if c = ';' then (⟨.semicolon, ";"⟩, rest)
      else if c = '(' then (⟨.lparen, "("⟩, rest)
      else if c = ')' then (⟨.rparen, ")"⟩, rest)
      else if c = '{' then (⟨.lbrace, "\x7b"⟩, rest)
      else if c = '}' then (⟨.rbrace, "\x7d"⟩, rest)
      else (⟨.illegal, String.mk [c]⟩, rest)

/-- Modelled from the spec: `next_token` skips whitespace and classifies at
the first remaining character. -/
def nextToken (input : List Char) : Token × List Char :=
  nextTokenCore (input.dropWhile isSpaceChar)

/-- The token stream of an input: repeated `next_token` calls up to and
including the first end-of-input token.  The step budget makes the
recursion structural; `lexStream` supplies a budget that is always
sufficient (each non-eof token consumes at least one character). -/
def lexLoop : Nat → List Char → List Token
  | 0, _ => []
  | fuel + 1, cs =>
      let (t, rest) := nextToken cs
      if t.type = .eof then [t] else t :: lexLoop fuel rest

/-- The full token stream of an input line, terminated by the end-of-input
token. -/
def lexStream (cs : List Char) : List Token :=
  lexLoop (cs.length + 1) cs

/-- The inner loop of `repl.Start`: call `NextToken` on the fresh lexer,
and while the token is not the end-of-input token, print it and call
`NextToken` again.  The result is the list of printed tokens.  The step
budget mirrors `lexLoop`'s and is always sufficient. -/
def replLoop : Nat → List Char → List Token
  | 0, _ => []
  | fuel + 1, cs =>
      let (t, rest) := nextToken cs
      if t.type = .eof then [] else t :: replLoop fuel rest

/-- The tokens `repl.Start` prints for one scanned line, through the fresh
`lexer.New(line)`. -/
def replPrintLine (line : String) : List Token :=
  replLoop (line.toList.length + 1) line.toList

/-- Source function `repl.Start`: the scanner yields one line per iteration until the input
is exhausted; each iteration builds a fresh lexer for the line and prints
its tokens.  The model maps the list of input lines to the per-line lists
of printed tokens; the empty input list (scanner exhausted at once) ends
the loop immediately. -/
def replStart : List String → List (List Token)
  | [] => []
  | line :: rest => replPrintLine line :: replStart rest

/-- Writing a binding leaves every other key's lookup unchanged and makes
the written key resolve to the new value (the map update law of the store
model). -/
theorem lookupStore_insertStore (s : List (String × Object)) (n m : String) (v : Object) :
    lookupStore (insertStore s n v) m = if m = n then some v else lookupStore s m := by
  induction s with
  | nil =>
      rcases eq_or_ne m n with h | h
      · subst h; simp [insertStore, lookupStore]
      · simp [insertStore, lookupStore, Ne.symm h, h]
  | cons kv rest ih =>
      obtain ⟨k, w⟩ := kv
      rcases eq_or_ne k n with hk | hk
      · subst hk
        rcases eq_or_ne k m with hm | hm
        · subst hm; simp [insertStore, lookupStore]
        · simp [insertStore, lookupStore, hm, Ne.symm hm]
      · rcases eq_or_ne k m with hm | hm
        · subst hm
          simp [insertStore, lookupStore, hk]
        · simp [insertStore, lookupStore, hk, hm, ih]

/-- Every environment's outer chain has positive length. -/
theorem Environment.depth_pos (e : Environment) : 1 ≤ e.depth := by
  cases e with
  | mk s o => cases o <;> simp [Environment.depth]

set_option maxHeartbeats 1000000 in
/-- On non-empty input the spec-modelled classifier always consumes at
least one character. -/
theorem nextTokenCore_progress (c : Char) (rest : List Char) :
    ((nextTokenCore (c :: rest)).2).length < (c :: rest).length := by
  have hrest : rest.length < (c :: rest).length := by
    simp only [List.length_cons]
    omega
  have htail : rest.tail.length < (c :: rest).length := by
    simp only [List.length_tail, List.length_cons]
    omega
  simp only [nextTokenCore]
  by_cases h1 : isLetterChar c = true
  · rw [if_pos h1]
    show ((c :: rest).dropWhile isLetterChar).length < (c :: rest).length
    rw [List.dropWhile_cons, if_pos h1]
    have := (List.dropWhile_sublist (l := rest) isLetterChar).length_le
    simp only [List.length_cons]
    omega
  rw [if_neg h1]
  by_cases h2 : c.isDigit = true
  · rw [if_pos h2]
    show ((c :: rest).dropWhile Char.isDigit).length < (c :: rest).length
    rw [List.dropWhile_cons, if_pos h2]
    have := (List.dropWhile_sublist (l := rest) Char.isDigit).length_le
    simp only [List.length_cons]
    omega
  rw [if_neg h2]
  by_cases h3 : c = '='
  · rw [if_pos h3]
    by_cases h4 : rest.head? = some '='
    · rw [if_pos h4]; exact htail
    · rw [if_neg h4]; exact hrest
  rw [if_neg h3]
  by_cases h5 : c = '!'
  · rw [if_pos h5]
    by_cases h6 : rest.head? = some '='
    · rw [if_pos h6]; exact htail
    · rw [if_neg h6]; exact hrest
  rw [if_neg h5]
  by_cases h7 : c = '+'
  · rw [if_pos h7]; exact hrest
  rw [if_neg h7]
  by_cases h8 : c = '-'
  · rw [if_pos h8]; exact hrest
  rw [if_neg h8]
  by_cases h9 : c = '*'
  · rw [if_pos h9]; exact hrest
  rw [if_neg h9]
  by_cases h10 : c = '/'
  · rw [if_pos h10]; exact hrest
  rw [if_neg h10]
  by_cases h11 : c = '<'
  · rw [if_pos h11]; exact hrest
  rw [if_neg h11]
  by_cases h12 : c = '>'
  · rw [if_pos h12]; exact hrest
  rw [if_neg h12]
  by_cases h13 : c = ','
  · rw [if_pos h13]; exact hrest
  rw [if_neg h13]
  by_cases h14 : c = ';'
  · rw [if_pos h14]; exact hrest
  rw [if_neg h14]
  by_cases h15 : c = '('
  · rw [if_pos h15]; exact hrest
  rw [if_neg h15]
  by_cases h16 : c = ')'
  · rw [if_pos h16]; exact hrest
  rw [if_neg h16]
  by_cases h17 : c = '{'
  · rw [if_pos h17]; exact hrest
  rw [if_neg h17]
  by_cases h18 : c = '}'
  · rw [if_pos h18]; exact hrest
  rw [if_neg h18]
  exact hrest

/-- A call of the spec-modelled `next_token` that does not produce the
end-of-input token consumes at least one character of the input. -/
theorem nextToken_progress (input : List Char)
    (h : (nextToken input).1.type ≠ TokenType.eof) :
    (nextToken input).2.length < input.length := by
  have hds : (input.dropWhile isSpaceChar).length ≤ input.length :=
    (List.dropWhile_sublist isSpaceChar).length_le
  unfold nextToken at h ⊢
  cases hcs : input.dropWhile isSpaceChar with
  | nil =>
      rw [hcs] at h
      exact absurd rfl h
  | cons c rest =>
      rw [hcs] at hds
      have hcore := nextTokenCore_progress c rest
      simp only [List.length_cons] at hds hcore ⊢
      omega

/-- The token stream of any input ends with the end-of-input token, and
every token before it is not the end-of-input token, provided the step
budget exceeds the input length (as `lexStream`'s always does). -/
theorem lexLoop_ends (fuel : Nat) :
    ∀ cs : List Char, cs.length < fuel →
      ∃ ts t0, lexLoop fuel cs = ts ++ [t0] ∧ t0.type = TokenType.eof ∧
        ∀ t ∈ ts, t.type ≠ TokenType.eof := by
  induction fuel with
  | zero => intro cs h; omega
  | succ n ih =>
      intro cs h
      rcases hnt : nextToken cs with ⟨t, rest⟩
      by_cases he : t.type = TokenType.eof
      · exact ⟨[], t, by simp [lexLoop, hnt, he], he, by simp⟩
      · have hp := nextToken_progress cs (by rw [hnt]; exact he)
        rw [hnt] at hp
        simp only [] at hp
        obtain ⟨ts, t0, heq, ht0, hts⟩ := ih rest (by omega)
        refine ⟨t :: ts, t0, by simp [lexLoop, hnt, he, heq], ht0, ?_⟩
        intro u hu
        rcases List.mem_cons.mp hu with h1 | h1
        · rw [h1]; exact he
        · exact hts u h1

/-- The read loop's inner print loop emits exactly the prefix of the token
stream before the first end-of-input token. -/
theorem replLoop_eq_takeWhile (fuel : Nat) :
    ∀ cs : List Char,
      replLoop fuel cs =
        (lexLoop fuel cs).takeWhile (fun t => decide (t.type ≠ TokenType.eof)) := by
  induction fuel with
  | zero => intro cs; simp [replLoop, lexLoop]
  | succ n ih =>
      intro cs
      rcases hnt : nextToken cs with ⟨t, rest⟩
      by_cases he : t.type = TokenType.eof
      · simp [replLoop, lexLoop, hnt, he, List.takeWhile_cons]
      · simp [replLoop, lexLoop, hnt, he, List.takeWhile_cons, ih]

/-- C1: `Environment.Get` resolves a name to the binding in the nearest
environment along the `outer` chain whose store contains it (`List.findSome?`
over the chain, innermost first), and to `none` (the `ok = false` /
NameError outcome) when no environment in the chain contains it. -/
theorem env_get_nearest : ∀ (e : Environment) (name : String),
    e.get name = e.chain.findSome? (fun env => lookupStore env.store name)
  | .mk store outer, name => by
    cases outer with
    | none =>
        cases h : lookupStore store name <;>
          simp [Environment.get, Environment.chain, Environment.store,
            List.findSome?_cons, h]
    | some o =>
        have ih := env_get_nearest o name
        cases h : lookupStore store name <;>
          simp [Environment.get, Environment.chain, Environment.store,
            List.findSome?_cons, h, ih]

/-- C3: after `Set(name, v)` on an environment, `Get(name)` on it returns
`v` regardless of the outer chain (inner bindings shadow outer ones); a
binding already in the own store is returned as-is, and the outer chain is
consulted only when the own store lacks the name. -/
theorem env_set_shadows (e : Environment) (name : String) (v : Object) :
    ((e.set name v).1.get name = some v) ∧
    (∀ w, lookupStore e.store name = some w → e.get name = some w) ∧
    (lookupStore e.store name = none →
      e.get name = Option.bind e.outer (fun o => o.get name)) := by
  refine ⟨?_, ?_, ?_⟩
  · cases e with
    | mk s o =>
        cases o <;>
          simp [Environment.set, Environment.get, Environment.store, Environment.outer,
            lookupStore_insertStore]
  · intro w hw
    cases e with
    | mk s o =>
        simp only [Environment.store] at hw
        cases o <;> simp [Environment.get, hw]
  · intro hn
    cases e with
    | mk s o =>
        simp only [Environment.store] at hn
        cases o <;> simp [Environment.get, Environment.outer, hn]

/-- Shadowing at a concrete input: a two-level chain where the inner set
binding wins, an inner binding is returned from the inner store, and a name
absent from the inner store falls through to the outer environment. -/
theorem env_set_shadows_witness :
    (((Environment.mk [("y", Object.integer 1)]
        (some (Environment.mk [("x", Object.integer 2)] none))).set "x"
        (Object.integer 3)).1.get "x" = some (Object.integer 3)) ∧
    ((Environment.mk [("y", Object.integer 1)]
        (some (Environment.mk [("x", Object.integer 2)] none))).get "y" =
      some (Object.integer 1)) ∧
    ((Environment.mk [("y", Object.integer 1)]
        (some (Environment.mk [("x", Object.integer 2)] none))).get "x" =
      Option.bind (Environment.mk [("y", Object.integer 1)]
        (some (Environment.mk [("x", Object.integer 2)] none))).outer
        (fun o => o.get "x")) :=
  ⟨(env_set_shadows _ "x" (Object.integer 3)).1,
   (env_set_shadows _ "y" (Object.integer 0)).2.1 (Object.integer 1) rfl,
   (env_set_shadows _ "x" (Object.integer 0)).2.2 rfl⟩

/-- C4: `NewEnclosedEnvironment(outer)` has an empty own store, its outer
link is exactly the given environment, and (before any `Set` on it) `Get`
on it agrees with `Get` on the given environment for every name. -/
theorem newEnclosedEnvironment_spec (outer : Environment) (name : String) :
    (newEnclosedEnvironment outer).store = [] ∧
    (newEnclosedEnvironment outer).outer = some outer ∧
    (newEnclosedEnvironment outer).get name = outer.get name := by
  refine ⟨rfl, rfl, ?_⟩
  simp [newEnclosedEnvironment, newEnvironment, Environment.get, lookupStore]

/-- C7: on any environment chain (the inductive model is exactly the
acyclic/tree case), the pointer-chasing walk of `Get` finishes within any
step budget of at least the chain's length, with the recursive `Get`'s
result: lookup terminates. -/
theorem env_get_terminates (e : Environment) (name : String) (fuel : Nat)
    (h : e.depth ≤ fuel) :
    Environment.getFuel fuel e name = some (e.get name) := by
  induction fuel generalizing e with
  | zero =>
      exfalso
      have := Environment.depth_pos e
      omega
  | succ n ih =>
      cases e with
      | mk store outer =>
          cases hl : lookupStore store name with
          | some v =>
              cases outer <;>
                simp [Environment.getFuel, Environment.get, Environment.store, hl]
          | none =>
              cases outer with
              | none =>
                  simp [Environment.getFuel, Environment.get, Environment.store,
                    Environment.outer, hl]
              | some o =>
                  have hd : o.depth ≤ n := by
                    simp [Environment.depth] at h
                    omega
                  simp [Environment.getFuel, Environment.get, Environment.store,
                    Environment.outer, hl, ih o hd]

/-- Termination of the lookup walk at a concrete two-level chain with a
budget equal to its depth. -/
theorem env_get_terminates_witness :
    (Environment.mk [] (some (Environment.mk [("x", Object.integer 5)] none))).depth ≤ 2 ∧
    Environment.getFuel 2
        (Environment.mk [] (some (Environment.mk [("x", Object.integer 5)] none))) "x" =
      some ((Environment.mk []
        (some (Environment.mk [("x", Object.integer 5)] none))).get "x") :=
  ⟨by decide,
   env_get_terminates (Environment.mk []
     (some (Environment.mk [("x", Object.integer 5)] none))) "x" 2 (by decide)⟩

/-- C8: `Set(name, val)` returns `val`, leaves the outer link (hence every
enclosing environment) unchanged, binds `name` to `val` in the own store,
and leaves the own-store lookup of every other name unchanged. -/
theorem env_set_frame (e : Environment) (name other : String) (v : Object) :
    ((e.set name v).2 = v) ∧
    ((e.set name v).1.outer = e.outer) ∧
    (lookupStore (e.set name v).1.store name = some v) ∧
    (other ≠ name → lookupStore (e.set name v).1.store other = lookupStore e.store other) := by
  refine ⟨rfl, rfl, ?_, ?_⟩
  · simp [Environment.set, Environment.store, lookupStore_insertStore]
  · intro h
    simp [Environment.set, Environment.store, lookupStore_insertStore, h]

/-- The frame property of `Set` at a concrete input: the value is returned,
the outer link survives, the written key reads back, and an unrelated key
is untouched. -/
theorem env_set_frame_witness :
    (((Environment.mk [("y", Object.integer 1)] none).set "x" (Object.integer 3)).2 =
      Object.integer 3) ∧
    (((Environment.mk [("y", Object.integer 1)] none).set "x" (Object.integer 3)).1.outer =
      (Environment.mk [("y", Object.integer 1)] none).outer) ∧
    (lookupStore ((Environment.mk [("y", Object.integer 1)] none).set "x"
        (Object.integer 3)).1.store "x" = some (Object.integer 3)) ∧
    (lookupStore ((Environment.mk [("y", Object.integer 1)] none).set "x"
        (Object.integer 3)).1.store "y" =
      lookupStore (Environment.mk [("y", Object.integer 1)] none).store "y") :=
  ⟨(env_set_frame (Environment.mk [("y", Object.integer 1)] none) "x" "y"
      (Object.integer 3)).1,
   (env_set_frame (Environment.mk [("y", Object.integer 1)] none) "x" "y"
      (Object.integer 3)).2.1,
   (env_set_frame (Environment.mk [("y", Object.integer 1)] none) "x" "y"
      (Object.integer 3)).2.2.1,
   (env_set_frame (Environment.mk [("y", Object.integer 1)] none) "x" "y"
      (Object.integer 3)).2.2.2 (by decide)⟩

/-- C2 (counterexample): it is not the case that every AST node variant
retains a token whose literal its `TokenLiteral` returns: the `Program`
root node stores no token at all (its only field is the statement list),
witnessed by the empty program. -/
theorem node_retains_token_cex :
    ¬ (∀ n : Node, ∃ t, n.tokenOf = some t ∧ n.tokenLiteral = t.literal) := by
  intro h
  obtain ⟨t, ht, -⟩ := h (.program ⟨[]⟩)
  simp [Node.tokenOf] at ht

/-- C2 (amended): every statement and expression node variant retains the
token that introduced it and its `TokenLiteral` returns that token's
literal; the `Program` root retains no token, and its `TokenLiteral`
delegates to the first statement, returning `""` for an empty program. -/
theorem node_retains_token_amended (s : Statement) (e : Expression) (p : Program) :
    s.tokenLiteral = s.token.literal ∧
    e.tokenLiteral = e.token.literal ∧
    (Node.program p).tokenOf = none ∧
    p.tokenLiteral = (match p.statements with
                      | [] => ""
                      | s0 :: _ => s0.tokenLiteral) := by
  refine ⟨?_, ?_, rfl, rfl⟩
  · cases s with
    | letStmt t n v => rfl
    | returnStmt t v => rfl
    | exprStmt t v => rfl
    | blockStmt b => cases b with | mk t l => rfl
  · cases e <;> rfl

/-- C5: rendering the program `if x { 10 }` with the source `String()`
methods yields the text `"ifx 10"` (the `if` keyword fused with the
identifier condition, and the block braces dropped); re-lexing that text
yields a single identifier token `"ifx"` followed by the integer token
`"10"` — not an `if` keyword token — so no parse of the rendered text can
rebuild the original if-expression. -/
theorem render_relex_fuses_if :
    Program.string ⟨[.exprStmt ⟨.ifKw, "if"⟩ (some (.ifExpr ⟨.ifKw, "if"⟩
        (.identExpr ⟨⟨.ident, "x"⟩, "x"⟩)
        (.mk ⟨.lbrace, "\x7b"⟩ [.exprStmt ⟨.int, "10"⟩ (some (.integerLiteral ⟨.int, "10"⟩ 10))])
        none))]⟩ = "ifx 10" ∧
    lexStream ("ifx 10".toList) =
      [⟨.ident, "ifx"⟩, ⟨.int, "10"⟩, ⟨.eof, ""⟩] ∧
    lookupIdent "ifx" = TokenType.ident ∧
    lookupIdent "if" = TokenType.ifKw := by
  refine ⟨?_, rfl, rfl, rfl⟩
  simp [Program.string, statementListString, Statement.string, Expression.string,
    BlockStatement.string, Identifier.string]

/-- C6: the read loop maps each input line, through a fresh lexer for that
line, to exactly the prefix of the line's token stream before the
end-of-input token (the end-of-input token is never printed, and the token
stream always ends with one); an exhausted input list ends the loop with
nothing further printed. -/
theorem replStart_spec (lines : List String) :
    replStart lines =
      lines.map (fun l =>
        (lexStream l.toList).takeWhile (fun t => decide (t.type ≠ TokenType.eof))) ∧
    (∀ l : String, ∃ ts t0, lexStream l.toList = ts ++ [t0] ∧
        t0.type = TokenType.eof ∧ ∀ t ∈ ts, t.type ≠ TokenType.eof) ∧
    replStart [] = [] := by
  refine ⟨?_, ?_, rfl⟩
  · induction lines with
    | nil => simp [replStart]
    | cons l ls ih =>
        simp [replStart, replPrintLine, lexStream, replLoop_eq_takeWhile, ih]
  · intro l
    exact lexLoop_ends (l.toList.length + 1) l.toList (by omega)

/-- C9: the return-signal wrapper is invisible to `Inspect` — inspecting
`ReturnValue(v)` gives exactly `v`'s inspection for every object `v` —
while inspecting an `Error` prefixes its message with `"ERROR: "`. -/
theorem inspect_signals (v : Object) (msg : String) :
    (Object.returnValue v).inspect = v.inspect ∧
    (Object.error msg).inspect = "ERROR: " ++ msg := by
  exact ⟨rfl, rfl⟩

/-- C10: the `String()` renderings are total when optional children are
absent: a `let` statement with no value renders as `"let <name> = ;"`, a
`return` statement with no return value renders as `"return ;"`, and an
expression statement with no expression renders as `""`. -/
theorem string_total_optional (tok tok2 : Token) (s : String) :
    (Statement.letStmt ⟨.letKw, "let"⟩ ⟨tok, s⟩ none).string = "let " ++ s ++ " = ;" ∧
    (Statement.returnStmt ⟨.returnKw, "return"⟩ none).string = "return ;" ∧
    (Statement.exprStmt tok2 none).string = "" := by
  refine ⟨?_, ?_, ?_⟩
  · simp only [Statement.string, Identifier.string]
    rw [show "let" ++ " " = "let " from rfl]
    rw [String.append_assoc, String.append_assoc]
    rw [show (" = " ++ ("" ++ ";") : String) = " = ;" from rfl]
  · simp [Statement.string]
  · simp [Statement.string]

end Monkey
